import Mathlib

/-!
Shallow embedding of the multi-step token-generation orchestrator in
`src/max/pipelines/pipeline.py` (class `TextGenerationPipeline`), together with
theorems checking the natural-language specification against it.

External collaborators (KV cache manager, model executor, sampler, grammar
engine, tokenizer) are modelled abstractly through their consumed contracts;
the orchestration logic itself (`calculate_num_steps`, `prepare_batch`, the
multi-step decode loop of `next_token`, and the response builder) is translated
statement by statement from the source.
-/

namespace MaxPipelines

/-- Token ids are plain integers in the source; we use `Nat`. -/
abbrev Token := Nat

/-- Opaque payload standing for one `LogProbabilities` record; the orchestrator
never inspects its contents, it only threads it through. -/
abbrev LogProbs := Nat

/-- Abstraction of a compiled `xgr.GrammarMatcher`: the jump-forward tokens it
would force (`find_jump_forward_string` followed by `tokenizer.encode`), and the
packed int32 row it writes through `fill_next_token_bitmask`. -/
structure Matcher where
  jumpForward : List Token
  next_token_bitmask : List Int
deriving DecidableEq, Repr

/-- Request context, mirroring the fields of `InputContext` that
`TextGenerationPipeline` reads and writes: cache identity, length bookkeeping,
pending tokens, generation history, structured-output state and per-request
log-probability settings. -/
structure Context where
  cache_seq_id : Nat
  current_length : Nat
  active_length : Nat
  start_idx : Nat
  max_length : Option Nat
  next_tokens : List Token
  history : List Token
  completion_queue : List (Token × Option LogProbs)
  json_schema : Option String
  matcher : Option Matcher
  log_probabilities : Nat
  log_probabilities_echo : Bool
deriving DecidableEq, Repr

/-- Sampling configuration: the single flag the orchestrator consults. -/
structure SamplingConfig where
  enable_structured_output : Bool
deriving DecidableEq, Repr

/-- Pipeline configuration restricted to what the orchestration core reads. -/
structure PipelineConfig where
  sampling_config : SamplingConfig
deriving DecidableEq, Repr

/-- Errors raised by the orchestrator (`ValueError` in the source), carrying the
data interpolated into the message text. -/
inductive PipelineError where
  | requestTooLong (cache_seq_id : Nat) (current_length : Nat) (max_seq_len : Nat)
  | schemaWithoutStructuredOutput
  | defaultExceedsUpperBound (default : Nat) (upper_bound : Nat)
deriving DecidableEq, Repr

/-- Truthiness of an optional Python string: `None` and the empty string are
falsy. -/
def strTruthy : Option String → Bool
  | none => false
  | some s => s ≠ ""

/-- Source `upper_bounded_default`: return the default clamped under the upper
bound, raising when the default exceeds it. -/
def upper_bounded_default (upper_bound : Nat) (default : Option Nat) :
    Except PipelineError Nat :=
  match default with
  | none => .ok upper_bound
  | some d =>
    if d > upper_bound then .error (.defaultExceedsUpperBound d upper_bound)
    else .ok d

/-- Source `TextGenerationPipeline.calculate_num_steps`: clamp the requested
step count to the steps available under the max sequence length, raising when
none are available. Arithmetic is over `Int` as in Python. -/
def calculate_num_steps (max_seq_len : Nat) (num_steps : Nat) (context : Context) :
    Except PipelineError Nat :=
  let num_available_steps : Int :=
    (max_seq_len : Int) - ((context.current_length : Int) - (context.active_length : Int))
  if num_available_steps ≤ 0 then
    .error (.requestTooLong context.cache_seq_id context.current_length max_seq_len)
  else if num_available_steps > (num_steps : Int) then .ok num_steps
  else .ok num_available_steps.toNat

/-- Abstraction of the KV cache slot manager: the set of claimed cache sequence
ids, as a list. Fetch/increment/step are modelled separately. -/
structure KVManager where
  claimed : List Nat
deriving DecidableEq, Repr

/-- Consumed contract `contains(id)`: membership in the claimed set. -/
def KVManager.contains (kv : KVManager) (seq_id : Nat) : Bool :=
  decide (seq_id ∈ kv.claimed)

/-- Consumed contract `external_claim(ids)`: add the ids to the claimed set. -/
def KVManager.external_claim (kv : KVManager) (seq_ids : List Nat) : KVManager :=
  { claimed := kv.claimed ++ seq_ids }

/-- Modelled from the spec: the cache slot manager's `step` operation (its code
is not under the sources) commits the per-slot new-token counts and leaves the
claimed-slot set unchanged; release is a separate, explicit operation. -/
def KVManager.step (kv : KVManager) (_seq_ids_and_new_tokens : Nat → Option (List Token)) :
    KVManager :=
  kv

/-- Modelled from the spec: the cache slot manager's `release(id)` operation
(its code is not under the sources) frees exactly the slot bound to `seq_id`. -/
def KVManager.release (kv : KVManager) (seq_id : Nat) : KVManager :=
  { claimed := kv.claimed.filter (fun x => x ≠ seq_id) }

/-- Modelled from the spec: `Context.jump_ahead` (context code is not under the
sources) injects one forced token into the pending token list, growing both the
active length and the current total length. -/
def Context.jump_ahead (context : Context) (token : Token) : Context :=
  { context with
    next_tokens := context.next_tokens ++ [token]
    active_length := context.active_length + 1
    current_length := context.current_length + 1 }

/-- Source `context.set_matcher(matcher)`. -/
def Context.set_matcher (context : Context) (m : Matcher) : Context :=
  { context with matcher := some m }

/-- Modelled from the spec: `Context.bump_token_indices(start_idx)` (context
code is not under the sources) advances the context's token-index bookkeeping
by `start_idx`, consuming that many pending tokens. -/
def Context.bump_token_indices (context : Context) (start_idx : Nat) : Context :=
  { context with
    start_idx := context.start_idx + start_idx
    active_length := context.active_length - start_idx }

/-- Abstraction of the `xgr.GrammarCompiler`: compiling a schema either yields a
matcher or fails (`none` models the raised exception). -/
structure GrammarCompiler where
  compile_json_schema : String → Option Matcher

/-- First block of the `prepare_batch` per-context loop: initialize a matcher if
the context carries a (truthy) json schema and no matcher yet. A schema with the
feature globally disabled raises; a failed compile clears the schema and lets
the context continue unconstrained. -/
def init_matcher (cfg : PipelineConfig) (gc : GrammarCompiler) (context : Context) :
    Except PipelineError Context :=
  match context.json_schema, context.matcher with
  | some schema, none =>
    if schema = "" then .ok context
    else if cfg.sampling_config.enable_structured_output = false then
      .error .schemaWithoutStructuredOutput
    else
      match gc.compile_json_schema schema with
      | some m => .ok (context.set_matcher m)
      | none => .ok { context with json_schema := none }
  | _, _ => .ok context

/-- Second block of the `prepare_batch` per-context loop: when a matcher is
present, inject its forced jump-forward tokens into the pending token list. -/
def apply_jump_forward (context : Context) : Context :=
  match context.matcher with
  | some m => m.jumpForward.foldl Context.jump_ahead context
  | none => context

/-- Third block of the `prepare_batch` per-context loop: claim the context's
cache row unless it is already claimed. -/
def claim_context (kv : KVManager) (context : Context) : KVManager :=
  if kv.contains context.cache_seq_id then kv
  else kv.external_claim [context.cache_seq_id]

/-- The `prepare_batch` per-context loop, threading the KV manager and the
running clamped step count and returning the updated contexts in order. -/
def prep_loop (cfg : PipelineConfig) (gc : GrammarCompiler) (max_seq_len : Nat) :
    KVManager → Nat → List Context →
    Except PipelineError (List Context × KVManager × Nat)
  | kv, num_steps, [] => .ok ([], kv, num_steps)
  | kv, num_steps, context :: rest =>
    match init_matcher cfg gc context with
    | .error e => .error e
    | .ok context =>
      let context := apply_jump_forward context
      let kv := claim_context kv context
      match calculate_num_steps max_seq_len num_steps context with
      | .error e => .error e
      | .ok num_steps =>
        match prep_loop cfg gc max_seq_len kv num_steps rest with
        | .error e => .error e
        | .ok (rest_out, kv_out, steps_out) =>
          .ok (context :: rest_out, kv_out, steps_out)

/-- Column count of `xgr.get_bitmask_shape(batch_size, vocab_size)`: one int32
word per 32 vocabulary entries. -/
def get_bitmask_shape_cols (vocab_size : Nat) : Nat :=
  (vocab_size + 31) / 32

/-- Bitmask allocation and fill of `prepare_batch`: when structured output is
globally enabled, a `(batch, words)` tensor filled with `-1` is allocated and
each row whose context has a matcher is overwritten through
`fill_next_token_bitmask`; otherwise the bitmask is `None`. -/
def fill_bitmask (cfg : PipelineConfig) (vocab_size : Nat) (contexts : List Context) :
    Option (List (List Int)) :=
  if cfg.sampling_config.enable_structured_output then
    some (contexts.map (fun context =>
      match context.matcher with
      | some m => m.next_token_bitmask
      | none => List.replicate (get_bitmask_shape_cols vocab_size) (-1)))
  else none

/-- Functional model of a Python dict update: later insertions shadow earlier
ones under the same key. -/
def dictUpd {α : Type} (d : Nat → Option α) (k : Nat) (v : α) : Nat → Option α :=
  fun q => if q = k then some v else d q

/-- The `seq_ids_and_prompts` dict built by the loop: id to pending tokens. -/
def prompts_dict (contexts : List Context) : Nat → Option (List Token) :=
  contexts.foldl (fun d context => dictUpd d context.cache_seq_id context.next_tokens)
    (fun _ => none)

/-- The `seq_ids_and_untrimmed_lengths` dict built by the loop: id to active
length before the cache fetch. -/
def untrimmed_dict (contexts : List Context) : Nat → Option Nat :=
  contexts.foldl (fun d context => dictUpd d context.cache_seq_id context.active_length)
    (fun _ => none)

/-- The trim-reconciliation step of `prepare_batch`: compute the bump amount
from the untrimmed length and the (possibly fetch-shortened) prompt, and bump
the context's token indices when it is positive. -/
def reconcile_context (untrimmed_length : Nat) (trimmed_prompt : List Token)
    (context : Context) : Context :=
  let trimmed_length := trimmed_prompt.length
  let bump_length := untrimmed_length - trimmed_length
  if bump_length > 0 then context.bump_token_indices bump_length else context

/-- Result of `prepare_batch`: the updated contexts (standing in for the
prepared initial model inputs), the KV manager after claims, the clamped step
count and the optional constraint bitmask. -/
structure PrepOut where
  contexts : List Context
  kv : KVManager
  num_steps : Nat
  bitmask : Option (List (List Int))
deriving DecidableEq, Repr

/-- Source `TextGenerationPipeline.prepare_batch`. The cache fetch is an
external collaborator; `fetchTrim` models how it shortens each pending-token
entry in place (identity when nothing is cached). -/
def prepare_batch (cfg : PipelineConfig) (gc : GrammarCompiler) (vocab_size : Nat)
    (fetchTrim : Nat → List Token → List Token) (max_seq_len : Nat)
    (kv : KVManager) (batch : List Context) (num_steps : Nat) :
    Except PipelineError PrepOut :=
  match prep_loop cfg gc max_seq_len kv num_steps batch with
  | .error e => .error e
  | .ok (contexts, kv_out, steps_out) =>
    let bitmask := fill_bitmask cfg vocab_size contexts
    let prompts := prompts_dict contexts
    let untrimmed := untrimmed_dict contexts
    let reconciled := contexts.map (fun context =>
      let untrimmed_length := (untrimmed context.cache_seq_id).getD 0
      let trimmed_prompt :=
        ((prompts context.cache_seq_id).map (fetchTrim context.cache_seq_id)).getD []
      reconcile_context untrimmed_length trimmed_prompt context)
    .ok { contexts := reconciled, kv := kv_out, num_steps := steps_out, bitmask := bitmask }

/-- Abstraction of the model executor plus sampler for one `next_token` call:
`sample step` is the column of tokens the sampler appends to the generated
token buffer at that step, and `compute_log_probabilities step` is the
executor's per-step log-probability result, `none` modelling the raised
`NotImplementedError`. -/
structure Executor where
  sample : Nat → List Token
  compute_log_probabilities : Nat → Option (List (Option LogProbs))

/-- Observable host/device events of one `next_token` call, in program order. -/
inductive Event where
  | executeModel (step : Nat)
  | sampleTokens (step : Nat)
  | computeLogProbs (step : Nat)
  | incrementCacheLengths (step : Nat)
  | prepareNextInputs (step : Nat)
  | copyToHost
  | kvStep
  | readHostTokens
deriving DecidableEq, Repr

/-- Classifies the events emitted inside the multi-step decode loop, as opposed
to the finalization events that follow it. -/
def Event.isLoopEvent : Event → Bool
  | .copyToHost => false
  | .kvStep => false
  | .readHostTokens => false
  | _ => true

/-- Accumulated results of the multi-step decode loop: the sampled token column
of every step, the per-step log-probability results, how many times the
executor's log-probability routine was invoked, whether a constraint mask was
active at each step, and the emitted event trace. -/
structure DecodeOut where
  generated_steps : List (List Token)
  batch_log_probabilities : List (Option (List (Option LogProbs)))
  lp_attempts : Nat
  mask_steps : List Bool
  trace : List Event
deriving DecidableEq, Repr

/-- One `next_token` decode iteration over the remaining step indices: execute
the model, sample (with the bitmask when present), attempt the per-step
log-probability computation when requested (recording `none` on
`NotImplementedError`), and — except on the last step — increment the cache
lengths and prepare the next step's inputs. -/
def decode_steps (exec : Executor) (compute_lp : Bool) (mask_on : Bool) (num_steps : Nat) :
    List Nat → DecodeOut
  | [] => ⟨[], [], 0, [], []⟩
  | i :: rest =>
    let tail := decode_steps exec compute_lp mask_on num_steps rest
    { generated_steps := exec.sample i :: tail.generated_steps
      batch_log_probabilities :=
        (if compute_lp then [exec.compute_log_probabilities i] else [])
          ++ tail.batch_log_probabilities
      lp_attempts := (if compute_lp then 1 else 0) + tail.lp_attempts
      mask_steps := mask_on :: tail.mask_steps
      trace :=
        Event.executeModel i :: Event.sampleTokens i ::
          ((if compute_lp then [Event.computeLogProbs i] else [])
            ++ ((if i = num_steps - 1 then []
                else [Event.incrementCacheLengths i, Event.prepareNextInputs i])
              ++ tail.trace)) }

/-- The multi-step execution loop of `next_token`, run for `num_steps` steps.
The bitmask (when present) stays active every step. -/
def decode_loop (exec : Executor) (compute_lp : Bool)
    (bitmask : Option (List (List Int))) (num_steps : Nat) : DecodeOut :=
  decode_steps exec compute_lp bitmask.isSome num_steps (List.range num_steps)

/-- Generation status of one request, mirroring `TextGenerationStatus`. -/
inductive TextGenerationStatus where
  | active
  | endOfSequence
  | maximumLength
deriving DecidableEq, Repr

/-- Source `TextGenerationStatus.is_done`: any terminal status. -/
def TextGenerationStatus.is_done : TextGenerationStatus → Bool
  | .active => false
  | .endOfSequence => true
  | .maximumLength => true

/-- Modelled from the spec: `Context.update` (context code is not under the
sources) writes one generated token into the context's own token history,
growing the current total length, and queues it with its optional
log-probabilities as an outstanding completion token. -/
def Context.update (context : Context) (new_token : Token)
    (log_probabilities : Option LogProbs) : Context :=
  { context with
    history := context.history ++ [new_token]
    current_length := context.current_length + 1
    completion_queue := context.completion_queue ++ [(new_token, log_probabilities)] }

/-- Modelled from the spec: `Context.outstanding_completion_tokens` (context
code is not under the sources) drains and returns the queued completion
tokens. -/
def Context.outstanding_completion_tokens (context : Context) :
    List (Token × Option LogProbs) × Context :=
  (context.completion_queue, { context with completion_queue := [] })

/-- Per-context inner loop of the `next_token` response builder: walk the
context's generated tokens in step order, write each into the context, and
evaluate termination after each token — end of sequence when the token is in
the eos id set, otherwise maximum length when the new current length equals the
clamped bound — stopping at the first terminal status. -/
def process_steps (eos_token_ids : Finset Token) (max_seq_len : Nat)
    (lp_row : Nat → Option LogProbs) :
    Context → TextGenerationStatus → Nat → List Token →
    Except PipelineError (Context × TextGenerationStatus)
  | context, status, _, [] => .ok (context, status)
  | context, status, step, next_token :: rest =>
    let is_eos := decide (next_token ∈ eos_token_ids)
    let context := context.update next_token (lp_row step)
    match upper_bounded_default max_seq_len context.max_length with
    | .error e => .error e
    | .ok max_length =>
      let status :=
        if is_eos then TextGenerationStatus.endOfSequence
        else if context.current_length = max_length then TextGenerationStatus.maximumLength
        else status
      if status.is_done then .ok (context, status)
      else process_steps eos_token_ids max_seq_len lp_row context status (step + 1) rest

/-- The `next_token` response builder: for each context in batch order, walk
its generated-token row, then drain its outstanding completion tokens into the
response. -/
def build_responses (eos_token_ids : Finset Token) (max_seq_len : Nat)
    (lp_at : Nat → Nat → Option LogProbs) (row_at : Nat → List Token) :
    Nat → List Context →
    Except PipelineError (List (Context × TextGenerationStatus × List (Token × Option LogProbs)))
  | _, [] => .ok []
  | b, context :: rest =>
    match process_steps eos_token_ids max_seq_len (lp_at b) context .active 0 (row_at b) with
    | .error e => .error e
    | .ok (context, status) =>
      let (toks, context) := context.outstanding_completion_tokens
      match build_responses eos_token_ids max_seq_len lp_at row_at (b + 1) rest with
      | .error e => .error e
      | .ok tail => .ok ((context, status, toks) :: tail)

/-- Successful outcome of one `next_token` call. -/
structure NextTokenOut where
  responses : List (Context × TextGenerationStatus × List (Token × Option LogProbs))
  kv : KVManager
  num_steps : Nat
  bitmask : Option (List (List Int))
deriving DecidableEq, Repr

/-- One `next_token` call as observed by the caller: its result, the KV manager
state it leaves behind, and the emitted event trace. -/
structure NextTokenRun where
  result : Except PipelineError NextTokenOut
  kv : KVManager
  trace : List Event

/-- Row `b` of `generated_tokens_host`: the step-order tokens of batch row `b`
read from the single host copy of the generated token buffer. -/
def host_row (generated_steps : List (List Token)) (b : Nat) : List Token :=
  generated_steps.map (fun col => col.getD b 0)

/-- The `any(batch_top_n)` check of `next_token`: whether any context in the
batch requests log probabilities. -/
def any_log_probabilities (batch : List Context) : Bool :=
  batch.any (fun context => context.log_probabilities ≠ 0)

/-- Log probabilities looked up by the response builder for batch row `b` at
`step`: present only when the computation was requested and that step's result
exists. -/
def lp_lookup (compute_lp : Bool)
    (batch_log_probabilities : List (Option (List (Option LogProbs))))
    (b step : Nat) : Option LogProbs :=
  if compute_lp then
    match batch_log_probabilities.getD step none with
    | some l => l.getD b none
    | none => none
  else none

/-- Source `TextGenerationPipeline.next_token`: prepare the batch, run the
multi-step decode loop without intermediate host reads, copy the generated
token buffer to host once, commit cache growth via the manager's `step`, and
build the per-request responses. The KV state and event trace are returned even
when an error propagates out of preparation. -/
def next_token (cfg : PipelineConfig) (gc : GrammarCompiler) (exec : Executor)
    (eos_token_ids : Finset Token) (vocab_size : Nat)
    (fetchTrim : Nat → List Token → List Token) (max_seq_len : Nat)
    (kv : KVManager) (batch : List Context) (num_steps : Nat) : NextTokenRun :=
  let compute_lp := any_log_probabilities batch
  match prepare_batch cfg gc vocab_size fetchTrim max_seq_len kv batch num_steps with
  | .error e => { result := .error e, kv := kv, trace := [] }
  | .ok prep =>
    let dec := decode_loop exec compute_lp prep.bitmask prep.num_steps
    let kv_out := prep.kv.step (fun seq_id =>
      (prompts_dict prep.contexts seq_id).map (fun _ => []))
    let trace := dec.trace ++ [Event.copyToHost, Event.kvStep]
      ++ List.replicate prep.contexts.length Event.readHostTokens
    match build_responses eos_token_ids max_seq_len
        (lp_lookup compute_lp dec.batch_log_probabilities)
        (host_row dec.generated_steps) 0 prep.contexts with
    | .error e => { result := .error e, kv := kv_out, trace := trace }
    | .ok rs =>
      { result := .ok
          { responses := rs, kv := kv_out, num_steps := prep.num_steps,
            bitmask := prep.bitmask }
        kv := kv_out
        trace := trace }

/-- Source `TextGenerationPipeline.release`: release the context's cache slot
from the KV manager. -/
def pipeline_release (kv : KVManager) (context : Context) : KVManager :=
  kv.release context.cache_seq_id

/-- Search form of the termination scan used to characterize the response
builder: the first step index (with its token) at which the walk of a
generated-token row terminates, given the clamped max length and the current
length at entry. -/
def first_termination (eos_token_ids : Finset Token) (max_length : Nat)
    (curr : Nat) (row : List Token) : Option (Nat × Token) :=
  row.enum.find? (fun p =>
    decide (p.2 ∈ eos_token_ids) || decide (curr + p.1 + 1 = max_length))

/-- Number of tokens the response builder writes into a context from a row. -/
def emitted_count (eos_token_ids : Finset Token) (max_length : Nat)
    (curr : Nat) (row : List Token) : Nat :=
  match first_termination eos_token_ids max_length curr row with
  | some p => p.1 + 1
  | none => row.length

/-- Final status the response builder assigns from a row: end of sequence when
the stopping token is an eos id (taking precedence), maximum length otherwise,
active when no step terminates. -/
def final_status (eos_token_ids : Finset Token) (max_length : Nat)
    (curr : Nat) (row : List Token) : TextGenerationStatus :=
  match first_termination eos_token_ids max_length curr row with
  | some p =>
    if p.2 ∈ eos_token_ids then TextGenerationStatus.endOfSequence
    else TextGenerationStatus.maximumLength
  | none => TextGenerationStatus.active

/-- Source `TextGenerationPipeline.__init__` eos-token expansion (lines
422-442): reconcile the constructor's `eos_token_id` with the one found in the
Hugging Face config. -/
inductive HFEosTokenId where
  | int (e : Token)
  | list (l : List Token)
  | other
deriving DecidableEq, Repr

/-- The end-of-sequence id set `self._eos_token_id` as computed by the
constructor from the optional Hugging Face config entry and the provided
`eos_token_id` argument. -/
def compute_eos_token_ids (hf_eos : Option HFEosTokenId) (eos_token_id : Token) :
    Finset Token :=
  match hf_eos with
  | some (.int e) => {e}
  | some (.list l) => if eos_token_id ∈ l then l.toFinset else {eos_token_id}
  | some .other => {eos_token_id}
  | none => {eos_token_id}

/-- Fixture: pipeline configuration with structured output globally disabled. -/
def cfgOff : PipelineConfig := ⟨⟨false⟩⟩

/-- Fixture: pipeline configuration with structured output globally enabled. -/
def cfgOn : PipelineConfig := ⟨⟨true⟩⟩

/-- Fixture: a grammar compiler on which every schema fails to compile. -/
def gc0 : GrammarCompiler := ⟨fun _ => none⟩

/-- Fixture: an empty KV manager. -/
def kv0 : KVManager := ⟨[]⟩

/-- Fixture: a plain context with three pending tokens and total length five. -/
def c1ctx : Context :=
  { cache_seq_id := 0, current_length := 5, active_length := 3, start_idx := 0,
    max_length := none, next_tokens := [1, 2, 3], history := [], completion_queue := [],
    json_schema := none, matcher := none, log_probabilities := 0,
    log_probabilities_echo := false }

/-- Fixture: a context whose next generated token lands exactly on its max
length bound of three. -/
def c2ctx : Context :=
  { c1ctx with current_length := 2, max_length := some 3 }

/-- Fixture: the state of `c2ctx` after one generated token is written. -/
def c2out : Context :=
  { c2ctx with history := [5], current_length := 3, completion_queue := [(5, none)] }

/-- Fixture: the context state of `c2ctx` after the response builder writes one
token that reaches the length bound and drains the queue. -/
def c2res : Context :=
  { c2ctx with history := [7], current_length := 3 }

/-- Fixture: an executor that always samples token seven and never supports
log probabilities. -/
def exec0 : Executor := ⟨fun _ => [7], fun _ => none⟩

/-- Fixture: a context already past a max length bound of six: total length ten
with no pending tokens. -/
def c6ctx : Context :=
  { c1ctx with current_length := 10, active_length := 0, next_tokens := [] }

/-- C10: when the Hugging Face config defines `eos_token_id` as a single int
`e` differing from the constructor argument `t`, the end-of-sequence id set is
exactly the singleton of the config's value and the constructor argument is not
in it (despite the warning claiming the provided id is used); when the config
defines a list not containing `t`, the set is the singleton of `t` and the
config's list is discarded. -/
theorem C10_eos_token_id_set (e t : Token) (he : e ≠ t) (l : List Token) (hl : t ∉ l) :
    (compute_eos_token_ids (some (.int e)) t = {e} ∧
      t ∉ compute_eos_token_ids (some (.int e)) t) ∧
    compute_eos_token_ids (some (.list l)) t = {t} := by
  refine ⟨⟨rfl, ?_⟩, ?_⟩
  · simp only [compute_eos_token_ids, Finset.mem_singleton]
    exact fun h => he h.symm
  · simp [compute_eos_token_ids, hl]

/-- Witness for C10 at concrete ids. -/
theorem C10_eos_token_id_set_witness :
    compute_eos_token_ids (some (.int 1)) 2 = {1} ∧
      2 ∉ compute_eos_token_ids (some (.int 1)) 2 :=
  (C10_eos_token_id_set 1 2 (by decide) [3, 4] (by decide)).1

/-- C5: when the cache fetch trims a context's pending tokens by `k`, the
reconciliation step advances the context's token-index bookkeeping by exactly
`k` and the untrimmed length equals the trimmed length plus the bump; a context
trimmed by zero tokens is not bumped; and for a singleton batch, preparation
applies exactly this reconciliation. -/
theorem C5_trim_bump (context : Context) (trimmed : List Token) (k : Nat)
    (hcontract : context.active_length = context.next_tokens.length)
    (htrim : trimmed.length + k = context.next_tokens.length) :
    (reconcile_context context.active_length trimmed context).start_idx =
        context.start_idx + k ∧
    context.active_length = trimmed.length + k ∧
    (k = 0 → reconcile_context context.active_length trimmed context = context) ∧
    (∀ cfg gc vocab_size fetchTrim max_seq_len kv num_steps out,
      context.json_schema = none → context.matcher = none →
      fetchTrim context.cache_seq_id context.next_tokens = trimmed →
      prepare_batch cfg gc vocab_size fetchTrim max_seq_len kv [context] num_steps
        = .ok out →
      out.contexts = [reconcile_context context.active_length trimmed context]) := by
  have hbump : context.active_length - trimmed.length = k := by omega
  refine ⟨?_, by omega, ?_, ?_⟩
  · simp only [reconcile_context, hbump]
    match k with
    | 0 => simp
    | k + 1 => simp [Context.bump_token_indices]
  · intro hk
    subst hk
    simp [reconcile_context, hbump]
  · intro cfg gc vocab_size fetchTrim max_seq_len kv num_steps out hschema hmatcher hft hok
    have hinit : init_matcher cfg gc context = .ok context := by
      simp [init_matcher, hschema]
    have hjump : apply_jump_forward context = context := by
      simp [apply_jump_forward, hmatcher]
    unfold prepare_batch prep_loop at hok
    rw [hinit] at hok
    dsimp only at hok
    rw [hjump] at hok
    cases hcalc : calculate_num_steps max_seq_len num_steps context with
    | error e =>
      rw [hcalc] at hok
      simp at hok
    | ok steps =>
      rw [hcalc] at hok
      simp only [prep_loop] at hok
      cases hok
      simp [prompts_dict, untrimmed_dict, dictUpd, hft]

/-- Witness for C5 at a concrete context trimmed by two tokens. -/
theorem C5_trim_bump_witness :
    (reconcile_context c1ctx.active_length [1] c1ctx).start_idx = c1ctx.start_idx + 2 :=
  (C5_trim_bump c1ctx [1] 2 rfl rfl).1

/-- C1 counterexample: with three pending tokens, total length five and max
sequence length six, preparation returns a batch step count of four, which
exceeds `max_length - current_length` (one) for that context — refuting the
claim as stated. -/
theorem C1_counterexample :
    (prepare_batch cfgOff gc0 0 (fun _ p => p) 6 kv0 [c1ctx] 10).map PrepOut.num_steps
        = .ok 4 ∧
    ¬ (4 ≤ 6 - c1ctx.current_length) := by
  exact ⟨rfl, by decide⟩

/-- C3 counterexample: with structured output globally enabled and a batch
whose single context requests no structured output (no schema, no matcher),
preparation still allocates the bitmask (permissive-filled) instead of leaving
it absent — refuting the claim as stated. -/
theorem C3_counterexample :
    ∃ out, prepare_batch cfgOn gc0 32 (fun _ p => p) 100 kv0 [c1ctx] 4 = .ok out ∧
      out.bitmask ≠ none ∧ c1ctx.json_schema = none ∧ c1ctx.matcher = none := by
  refine ⟨_, rfl, by decide, rfl, rfl⟩

/-- C2 counterexample: a sampled token that is in the eos set while the new
total length simultaneously reaches the max length bound is reported with
status end-of-sequence, not maximum-length — refuting the claim's
maximum-length condition as stated (eos takes precedence). -/
theorem C2_counterexample :
    process_steps ({5} : Finset Token) 10 (fun _ => none) c2ctx .active 0 [5]
        = .ok (c2out, .endOfSequence) ∧
    c2out.current_length = 3 ∧
    upper_bounded_default 10 c2ctx.max_length = .ok 3 ∧
    TextGenerationStatus.endOfSequence ≠ TextGenerationStatus.maximumLength := by
  refine ⟨rfl, rfl, rfl, by decide⟩

/-- C7 counterexample: with log probabilities requested and an executor that
never supports them, a two-step decode loop attempts the computation at every
step (two attempts, recording an absent result each time) — the capability is
not disabled after the first failure, refuting the claim's
disabled-for-lifetime condition for log probabilities. -/
theorem C7_counterexample :
    (decode_loop exec0 true none 2).lp_attempts = 2 ∧
    (decode_loop exec0 true none 2).batch_log_probabilities = [none, none] ∧
    ¬ ((decode_loop exec0 true none 2).lp_attempts ≤ 1) := by
  refine ⟨rfl, rfl, by decide⟩

theorem calc_num_steps_ok_le (max_seq_len num_steps : Nat) (context : Context) (k : Nat)
    (h : calculate_num_steps max_seq_len num_steps context = .ok k) :
    k ≤ num_steps ∧
    (k : Int) ≤ (max_seq_len : Int) -
      ((context.current_length : Int) - (context.active_length : Int)) ∧
    (0 : Int) < (max_seq_len : Int) -
      ((context.current_length : Int) - (context.active_length : Int)) := by
  unfold calculate_num_steps at h
  dsimp only at h
  split_ifs at h with h1 h2
  · cases h
    exact ⟨le_refl _, by omega, by omega⟩
  · cases h
    have h0 : (0 : Int) < (max_seq_len : Int) -
        ((context.current_length : Int) - (context.active_length : Int)) := by omega
    refine ⟨Int.toNat_le.mpr (by omega), ?_, h0⟩
    rw [Int.toNat_of_nonneg (le_of_lt h0)]

theorem calc_num_steps_error_iff (max_seq_len num_steps : Nat) (context : Context)
    (e : PipelineError)
    (h : calculate_num_steps max_seq_len num_steps context = .error e) :
    e = .requestTooLong context.cache_seq_id context.current_length max_seq_len ∧
    (max_seq_len : Int) ≤ (context.current_length : Int) - (context.active_length : Int) := by
  unfold calculate_num_steps at h
  dsimp only at h
  split_ifs at h with h1 h2
  cases h
  exact ⟨rfl, by omega⟩

theorem init_matcher_ok_fields (cfg : PipelineConfig) (gc : GrammarCompiler)
    (context c1 : Context) (h : init_matcher cfg gc context = .ok c1) :
    c1.cache_seq_id = context.cache_seq_id ∧
    c1.current_length = context.current_length ∧
    c1.active_length = context.active_length := by
  unfold init_matcher at h
  split at h
  · split_ifs at h
    · cases h
      exact ⟨rfl, rfl, rfl⟩
    · split at h
      · cases h
        exact ⟨rfl, rfl, rfl⟩
      · cases h
        exact ⟨rfl, rfl, rfl⟩
  · cases h
    exact ⟨rfl, rfl, rfl⟩

theorem init_matcher_error_iff (cfg : PipelineConfig) (gc : GrammarCompiler)
    (context : Context) (e : PipelineError)
    (h : init_matcher cfg gc context = .error e) :
    e = .schemaWithoutStructuredOutput ∧
    cfg.sampling_config.enable_structured_output = false ∧
    strTruthy context.json_schema = true ∧ context.matcher = none := by
  unfold init_matcher at h
  split at h
  case _ schema heq1 heq2 =>
    split_ifs at h with h1 h2
    · cases h
      exact ⟨rfl, h2, by simp [strTruthy, heq1, h1], heq2⟩
    · split at h
      · cases h
      · cases h
  case _ =>
    cases h

theorem jump_foldl_fields (toks : List Token) (context : Context) :
    (toks.foldl Context.jump_ahead context).cache_seq_id = context.cache_seq_id ∧
    (toks.foldl Context.jump_ahead context).current_length
      = context.current_length + toks.length ∧
    (toks.foldl Context.jump_ahead context).active_length
      = context.active_length + toks.length := by
  induction toks generalizing context with
  | nil => simp
  | cons t ts ih =>
    simp only [List.foldl_cons, List.length_cons]
    obtain ⟨h1, h2, h3⟩ := ih (context.jump_ahead t)
    refine ⟨h1, ?_, ?_⟩
    · rw [h2]
      simp only [Context.jump_ahead]
      omega
    · rw [h3]
      simp only [Context.jump_ahead]
      omega

theorem apply_jump_forward_fields (context : Context) :
    (apply_jump_forward context).cache_seq_id = context.cache_seq_id ∧
    ((apply_jump_forward context).current_length : Int) -
        ((apply_jump_forward context).active_length : Int)
      = (context.current_length : Int) - (context.active_length : Int) ∧
    context.current_length ≤ (apply_jump_forward context).current_length := by
  unfold apply_jump_forward
  cases hm : context.matcher with
  | none => exact ⟨rfl, rfl, le_refl _⟩
  | some m =>
    obtain ⟨h1, h2, h3⟩ := jump_foldl_fields m.jumpForward context
    refine ⟨h1, ?_, ?_⟩
    · rw [h2, h3]
      push_cast
      ring
    · rw [h2]
      exact Nat.le_add_right _ _

theorem prep_loop_ok_num_steps (cfg : PipelineConfig) (gc : GrammarCompiler)
    (max_seq_len : Nat) :
    ∀ (batch : List Context) (kv : KVManager) (num_steps : Nat)
      (ctxs : List Context) (kv1 : KVManager) (steps1 : Nat),
    prep_loop cfg gc max_seq_len kv num_steps batch = .ok (ctxs, kv1, steps1) →
    steps1 ≤ num_steps ∧
    ∀ c ∈ batch, (steps1 : Int) ≤ (max_seq_len : Int) -
      ((c.current_length : Int) - (c.active_length : Int)) := by
  intro batch
  induction batch with
  | nil =>
    intro kv n ctxs kv1 s1 h
    unfold prep_loop at h
    cases h
    exact ⟨le_refl _, by simp⟩
  | cons c rest ih =>
    intro kv n ctxs kv1 s1 h
    unfold prep_loop at h
    cases hinit : init_matcher cfg gc c with
    | error e =>
      rw [hinit] at h
      simp at h
    | ok c1 =>
      rw [hinit] at h
      dsimp only at h
      cases hcalc : calculate_num_steps max_seq_len n (apply_jump_forward c1) with
      | error e =>
        rw [hcalc] at h
        simp at h
      | ok k =>
        rw [hcalc] at h
        dsimp only at h
        cases hrest : prep_loop cfg gc max_seq_len
            (claim_context kv (apply_jump_forward c1)) k rest with
        | error e =>
          rw [hrest] at h
          simp at h
        | ok trip =>
          obtain ⟨ctxs2, kv2, s2⟩ := trip
          rw [hrest] at h
          cases h
          obtain ⟨hkn, hkb, hkpos⟩ := calc_num_steps_ok_le _ _ _ _ hcalc
          obtain ⟨hs2k, hrest_bound⟩ := ih _ _ _ _ _ hrest
          refine ⟨hs2k.trans hkn, ?_⟩
          intro x hx
          cases hx with
          | head =>
            obtain ⟨hf1, hf2, hf3⟩ := init_matcher_ok_fields _ _ _ _ hinit
            obtain ⟨hj1, hj2, hj3⟩ := apply_jump_forward_fields c1
            rw [hj2, hf2, hf3] at hkb
            omega
          | tail _ hx =>
            exact hrest_bound x hx

/-- C1 (amended): the batch step count returned by preparation never exceeds
`max_seq_len - (current_length - active_length)` — the max length minus the
cache-committed length — for any context in the batch (rather than
`max_length - current_length` as originally claimed), and never exceeds the
requested step count. -/
theorem C1_amended_num_steps_bound (cfg : PipelineConfig) (gc : GrammarCompiler)
    (vocab_size : Nat) (fetchTrim : Nat → List Token → List Token)
    (max_seq_len : Nat) (kv : KVManager) (batch : List Context) (num_steps : Nat)
    (out : PrepOut)
    (hok : prepare_batch cfg gc vocab_size fetchTrim max_seq_len kv batch num_steps
      = .ok out) (c : Context) (hc : c ∈ batch) :
    (out.num_steps : Int) ≤ (max_seq_len : Int) -
      ((c.current_length : Int) - (c.active_length : Int)) ∧
    out.num_steps ≤ num_steps := by
  unfold prepare_batch at hok
  cases hloop : prep_loop cfg gc max_seq_len kv num_steps batch with
  | error e =>
    rw [hloop] at hok
    simp at hok
  | ok trip =>
    obtain ⟨ctxs, kv1, s1⟩ := trip
    rw [hloop] at hok
    cases hok
    obtain ⟨h1, h2⟩ := prep_loop_ok_num_steps cfg gc max_seq_len batch _ _ _ _ _ hloop
    exact ⟨h2 c hc, h1⟩

/-- Witness for the amended C1 at a concrete batch: four steps against a bound
of four from committed length two under max length six. -/
theorem C1_amended_num_steps_bound_witness :
    (4 : Int) ≤ (6 : Int) -
      ((c1ctx.current_length : Int) - (c1ctx.active_length : Int)) :=
  (C1_amended_num_steps_bound cfgOff gc0 0 (fun _ p => p) 6 kv0 [c1ctx] 10 _ rfl
    c1ctx (List.mem_singleton.mpr rfl)).1

theorem claim_context_contains_self (kv : KVManager) (c : Context) :
    (claim_context kv c).contains c.cache_seq_id = true := by
  unfold claim_context
  by_cases h : kv.contains c.cache_seq_id = true
  · simp [h]
  · rw [if_neg h]
    simp [KVManager.contains, KVManager.external_claim]

theorem claim_context_contains_mono (kv : KVManager) (c : Context) (id : Nat)
    (h : kv.contains id = true) : (claim_context kv c).contains id = true := by
  unfold claim_context
  by_cases hc : kv.contains c.cache_seq_id
  · simpa [hc]
  · rw [if_neg hc]
    simp only [KVManager.contains, KVManager.external_claim, List.mem_append,
      decide_eq_true_eq] at h ⊢
    exact Or.inl (by simpa [KVManager.contains] using h)

theorem claim_context_contains_bound (kv : KVManager) (c : Context) (id : Nat)
    (h : (claim_context kv c).contains id = true) :
    kv.contains id = true ∨ id = c.cache_seq_id := by
  unfold claim_context at h
  by_cases hc : kv.contains c.cache_seq_id
  · rw [if_pos hc] at h
    exact Or.inl h
  · rw [if_neg hc] at h
    simp only [KVManager.contains, KVManager.external_claim, List.mem_append,
      decide_eq_true_eq, List.mem_singleton] at h
    rcases h with h | h
    · exact Or.inl (by simpa [KVManager.contains] using h)
    · exact Or.inr h

theorem claim_context_nodup (kv : KVManager) (c : Context)
    (h : kv.claimed.Nodup) : (claim_context kv c).claimed.Nodup := by
  unfold claim_context
  by_cases hc : kv.contains c.cache_seq_id
  · simpa [hc]
  · rw [if_neg hc]
    simp only [KVManager.contains, decide_eq_true_eq] at hc
    simp [KVManager.external_claim, List.nodup_append, h, List.Disjoint]
    intro a ha hmem
    exact hc (hmem ▸ ha)

theorem prep_loop_kv (cfg : PipelineConfig) (gc : GrammarCompiler) (max_seq_len : Nat) :
    ∀ (batch : List Context) (kv : KVManager) (num_steps : Nat)
      (ctxs : List Context) (kv1 : KVManager) (steps1 : Nat),
    prep_loop cfg gc max_seq_len kv num_steps batch = .ok (ctxs, kv1, steps1) →
    (∀ id, kv.contains id = true → kv1.contains id = true) ∧
    (∀ c ∈ batch, kv1.contains c.cache_seq_id = true) ∧
    (∀ id, kv1.contains id = true →
      kv.contains id = true ∨ ∃ c ∈ batch, id = c.cache_seq_id) ∧
    (kv.claimed.Nodup → kv1.claimed.Nodup) := by
  intro batch
  induction batch with
  | nil =>
    intro kv n ctxs kv1 s1 h
    unfold prep_loop at h
    cases h
    exact ⟨fun _ h => h, by simp, fun id h => Or.inl h, fun h => h⟩
  | cons c rest ih =>
    intro kv n ctxs kv1 s1 h
    unfold prep_loop at h
    cases hinit : init_matcher cfg gc c with
    | error e =>
      rw [hinit] at h
      simp at h
    | ok c1 =>
      rw [hinit] at h
      dsimp only at h
      cases hcalc : calculate_num_steps max_seq_len n (apply_jump_forward c1) with
      | error e =>
        rw [hcalc] at h
        simp at h
      | ok k =>
        rw [hcalc] at h
        dsimp only at h
        cases hrest : prep_loop cfg gc max_seq_len
            (claim_context kv (apply_jump_forward c1)) k rest with
        | error e =>
          rw [hrest] at h
          simp at h
        | ok trip =>
          obtain ⟨ctxs2, kv2, s2⟩ := trip
          rw [hrest] at h
          cases h
          obtain ⟨hmono, hbatch, hbound, hnodup⟩ := ih _ _ _ _ _ hrest
          have hid : (apply_jump_forward c1).cache_seq_id = c.cache_seq_id := by
            rw [(apply_jump_forward_fields c1).1]
            exact (init_matcher_ok_fields _ _ _ _ hinit).1
          refine ⟨?_, ?_, ?_, ?_⟩
          · intro id hkv
            exact hmono id (claim_context_contains_mono _ _ _ hkv)
          · intro x hx
            cases hx with
            | head =>
              have := claim_context_contains_self kv (apply_jump_forward c1)
              rw [hid] at this
              exact hmono _ this
            | tail _ hx =>
              exact hbatch x hx
          · intro id hk2
            rcases hbound id hk2 with hk | ⟨x, hx, hxid⟩
            · rcases claim_context_contains_bound _ _ _ hk with hk | hk
              · exact Or.inl hk
              · exact Or.inr ⟨c, List.mem_cons_self _ _, by rw [hk, hid]⟩
            · exact Or.inr ⟨x, List.mem_cons_of_mem _ hx, hxid⟩
          · intro hnd
            exact hnodup (claim_context_nodup _ _ hnd)

/-- C4: after a successful preparation every context's cache-sequence id is
claimed in the cache slot manager; claiming is idempotent — an id already
claimed is skipped, so a duplicate-free claimed set stays duplicate-free and no
error arises; no id outside the batch is newly claimed; and claims of ids
already present are preserved. -/
theorem C4_cache_claims (cfg : PipelineConfig) (gc : GrammarCompiler)
    (vocab_size : Nat) (fetchTrim : Nat → List Token → List Token)
    (max_seq_len : Nat) (kv : KVManager) (batch : List Context) (num_steps : Nat)
    (out : PrepOut)
    (hok : prepare_batch cfg gc vocab_size fetchTrim max_seq_len kv batch num_steps
      = .ok out) :
    (∀ c ∈ batch, out.kv.contains c.cache_seq_id = true) ∧
    (∀ id, out.kv.contains id = true →
      kv.contains id = true ∨ ∃ c ∈ batch, id = c.cache_seq_id) ∧
    (kv.claimed.Nodup → out.kv.claimed.Nodup) ∧
    (∀ id, kv.contains id = true → out.kv.contains id = true) := by
  unfold prepare_batch at hok
  cases hloop : prep_loop cfg gc max_seq_len kv num_steps batch with
  | error e =>
    rw [hloop] at hok
    simp at hok
  | ok trip =>
    obtain ⟨ctxs, kv1, s1⟩ := trip
    rw [hloop] at hok
    cases hok
    obtain ⟨hmono, hbatch, hbound, hnodup⟩ := prep_loop_kv cfg gc max_seq_len batch _ _ _ _ _ hloop
    exact ⟨hbatch, hbound, hnodup, hmono⟩

/-- Witness for C4: the concrete singleton batch claims its context's cache id. -/
theorem C4_cache_claims_witness :
    (prepare_batch cfgOff gc0 0 (fun _ p => p) 6 kv0 [c1ctx] 10).map
      (fun out => out.kv.contains c1ctx.cache_seq_id) = Except.ok true :=
  congrArg Except.ok
    ((C4_cache_claims cfgOff gc0 0 (fun _ p => p) 6 kv0 [c1ctx] 10 _ rfl).1
      c1ctx (List.mem_singleton.mpr rfl))

theorem decode_steps_mask (exec : Executor) (compute_lp mask_on : Bool) (num_steps : Nat) :
    ∀ l : List Nat, (decode_steps exec compute_lp mask_on num_steps l).mask_steps
      = l.map (fun _ => mask_on) := by
  intro l
  induction l with
  | nil => rfl
  | cons i rest ih => simp [decode_steps, ih]

/-- C3 (amended): the constraint bitmask is absent (None) throughout
preparation and every decode step exactly when the structured-output feature is
globally disabled in the pipeline configuration; when the flag is enabled the
bitmask is allocated even if no context in the batch requests structured
output. -/
theorem C3_amended_bitmask (cfg : PipelineConfig) (gc : GrammarCompiler)
    (vocab_size : Nat) (fetchTrim : Nat → List Token → List Token)
    (max_seq_len : Nat) (kv : KVManager) (batch : List Context) (num_steps : Nat)
    (out : PrepOut) (exec : Executor) (compute_lp : Bool)
    (hok : prepare_batch cfg gc vocab_size fetchTrim max_seq_len kv batch num_steps
      = .ok out) :
    (out.bitmask = none ↔ cfg.sampling_config.enable_structured_output = false) ∧
    (decode_loop exec compute_lp out.bitmask out.num_steps).mask_steps
      = List.replicate out.num_steps out.bitmask.isSome := by
  have hmask : (decode_loop exec compute_lp out.bitmask out.num_steps).mask_steps
      = List.replicate out.num_steps out.bitmask.isSome := by
    unfold decode_loop
    rw [decode_steps_mask]
    rw [show (fun _ : Nat => out.bitmask.isSome) = Function.const Nat out.bitmask.isSome
      from rfl]
    rw [List.map_const, List.length_range]
  refine ⟨?_, hmask⟩
  unfold prepare_batch at hok
  cases hloop : prep_loop cfg gc max_seq_len kv num_steps batch with
  | error e =>
    rw [hloop] at hok
    simp at hok
  | ok trip =>
    obtain ⟨ctxs, kv1, s1⟩ := trip
    rw [hloop] at hok
    cases hok
    unfold fill_bitmask
    by_cases hflag : cfg.sampling_config.enable_structured_output
    · simp [hflag]
    · simp [hflag]

/-- Witness for the amended C3: with structured output globally disabled, the
concrete preparation leaves the bitmask absent. -/
theorem C3_amended_bitmask_witness :
    (prepare_batch cfgOff gc0 0 (fun _ p => p) 6 kv0 [c1ctx] 10).map PrepOut.bitmask
      = Except.ok none :=
  congrArg Except.ok
    ((C3_amended_bitmask cfgOff gc0 0 (fun _ p => p) 6 kv0 [c1ctx] 10 _ exec0 false
      rfl).1.mpr rfl)

theorem decode_steps_lp_list (exec : Executor) (mask_on : Bool) (num_steps : Nat) :
    ∀ l : List Nat,
    (decode_steps exec true mask_on num_steps l).batch_log_probabilities
      = l.map exec.compute_log_probabilities ∧
    (decode_steps exec true mask_on num_steps l).lp_attempts = l.length ∧
    (decode_steps exec false mask_on num_steps l).lp_attempts = 0 := by
  intro l
  induction l with
  | nil => exact ⟨rfl, rfl, rfl⟩
  | cons i rest ih =>
    obtain ⟨h1, h2, h3⟩ := ih
    refine ⟨?_, ?_, ?_⟩
    · simp [decode_steps, h1]
    · simp [decode_steps, h2]
      omega
    · simp [decode_steps, h3]

/-- C7 (amended/corrected): both recoverable degradations are caught without
failing the batch. A grammar compile failure clears the context's schema so the
capability is disabled for that request's lifetime (later preparations leave
the context untouched for any compiler); an unsupported log-probability
computation records an absent result for that step and the loop completes all
steps — but the computation is re-attempted at every step (`num_steps`
attempts) rather than disabled after the first failure. -/
theorem C7_recoverable_degradations (cfg : PipelineConfig) (gc gc2 : GrammarCompiler)
    (context : Context) (schema : String) (exec : Executor)
    (bm : Option (List (List Int))) (num_steps i : Nat) :
    (cfg.sampling_config.enable_structured_output = true →
      context.json_schema = some schema → schema ≠ "" → context.matcher = none →
      gc.compile_json_schema schema = none →
      init_matcher cfg gc context = .ok { context with json_schema := none }) ∧
    (strTruthy context.json_schema = false →
      init_matcher cfg gc context = .ok context ∧
      init_matcher cfg gc context = init_matcher cfg gc2 context) ∧
    (exec.compute_log_probabilities i = none → i < num_steps →
      (decode_loop exec true bm num_steps).batch_log_probabilities.getD i (some [])
        = none) ∧
    (decode_loop exec true bm num_steps).batch_log_probabilities.length = num_steps ∧
    (decode_loop exec true bm num_steps).lp_attempts = num_steps ∧
    (decode_loop exec false bm num_steps).lp_attempts = 0 := by
  obtain ⟨hlist, hlen, hzero⟩ :=
    decode_steps_lp_list exec bm.isSome num_steps (List.range num_steps)
  refine ⟨?_, ?_, ?_, ?_, ?_, ?_⟩
  · intro hflag hschema hne hmatcher hcompile
    unfold init_matcher
    rw [hschema, hmatcher]
    dsimp only
    rw [if_neg hne, if_neg (by simp [hflag]), hcompile]
  · intro hfalse
    cases hj : context.json_schema with
    | none =>
      constructor <;> simp [init_matcher, hj]
    | some s =>
      have hs : s = "" := by
        rw [hj] at hfalse
        simpa [strTruthy] using hfalse
      subst hs
      cases hm : context.matcher with
      | none => constructor <;> simp [init_matcher, hj, hm]
      | some m => constructor <;> simp [init_matcher, hj, hm]
  · intro hnone hi
    unfold decode_loop
    rw [List.getD_eq_getElem?_getD, hlist, List.getElem?_map, List.getElem?_range hi]
    simp [hnone]
  · unfold decode_loop
    rw [hlist, List.length_map, List.length_range]
  · unfold decode_loop
    rw [hlen, List.length_range]
  · unfold decode_loop
    exact hzero

/-- Witness for the amended C7: concrete failing compiler and executor. -/
theorem C7_recoverable_degradations_witness :
    (decode_loop exec0 true none 3).batch_log_probabilities.getD 1 (some []) = none :=
  ((C7_recoverable_degradations cfgOn gc0 gc0 c1ctx "s" exec0 none 3 1).2.2.1)
    rfl (by decide)

theorem prep_loop_error_of_too_long (cfg : PipelineConfig) (gc : GrammarCompiler)
    (max_seq_len : Nat) :
    ∀ (batch : List Context) (kv : KVManager) (num_steps : Nat),
    (∃ c ∈ batch, (max_seq_len : Int) ≤
      (c.current_length : Int) - (c.active_length : Int)) →
    ∃ e, prep_loop cfg gc max_seq_len kv num_steps batch = .error e := by
  intro batch
  induction batch with
  | nil =>
    rintro kv n ⟨c, hc, _⟩
    cases hc
  | cons c rest ih =>
    rintro kv n ⟨x, hx, hbound⟩
    unfold prep_loop
    cases hinit : init_matcher cfg gc c with
    | error e => exact ⟨e, rfl⟩
    | ok c1 =>
      dsimp only
      cases hcalc : calculate_num_steps max_seq_len n (apply_jump_forward c1) with
      | error e => exact ⟨e, rfl⟩
      | ok k =>
        dsimp only
        cases hx with
        | head =>
          exfalso
          have hpos := (calc_num_steps_ok_le _ _ _ _ hcalc).2.2
          obtain ⟨_, hf2, hf3⟩ := init_matcher_ok_fields _ _ _ _ hinit
          have hj := (apply_jump_forward_fields c1).2.1
          rw [hj, hf2, hf3] at hpos
          omega
        | tail _ hx =>
          obtain ⟨e, he⟩ :=
            ih (claim_context kv (apply_jump_forward c1)) k ⟨x, hx, hbound⟩
          rw [he]
          exact ⟨e, rfl⟩

theorem prep_loop_error_of_schema (cfg : PipelineConfig) (gc : GrammarCompiler)
    (max_seq_len : Nat)
    (hflag : cfg.sampling_config.enable_structured_output = false) :
    ∀ (batch : List Context) (kv : KVManager) (num_steps : Nat),
    (∃ c ∈ batch, strTruthy c.json_schema = true ∧ c.matcher = none) →
    ∃ e, prep_loop cfg gc max_seq_len kv num_steps batch = .error e := by
  intro batch
  induction batch with
  | nil =>
    rintro kv n ⟨c, hc, _⟩
    cases hc
  | cons c rest ih =>
    rintro kv n ⟨x, hx, hts, hm⟩
    unfold prep_loop
    cases hx with
    | head =>
      cases hj : c.json_schema with
      | none =>
        rw [hj] at hts
        simp [strTruthy] at hts
      | some s =>
        have hne : s ≠ "" := by
          rw [hj] at hts
          simpa [strTruthy] using hts
        have hinit : init_matcher cfg gc c = .error .schemaWithoutStructuredOutput := by
          unfold init_matcher
          rw [hj, hm]
          dsimp only
          rw [if_neg hne, if_pos hflag]
        rw [hinit]
        exact ⟨.schemaWithoutStructuredOutput, rfl⟩
    | tail _ hx =>
      cases hinit : init_matcher cfg gc c with
      | error e => exact ⟨e, rfl⟩
      | ok c1 =>
        dsimp only
        cases hcalc : calculate_num_steps max_seq_len n (apply_jump_forward c1) with
        | error e => exact ⟨e, rfl⟩
        | ok k =>
          dsimp only
          obtain ⟨e, he⟩ :=
            ih (claim_context kv (apply_jump_forward c1)) k ⟨x, hx, hts, hm⟩
          rw [he]
          exact ⟨e, rfl⟩

theorem prep_loop_error_cases (cfg : PipelineConfig) (gc : GrammarCompiler)
    (max_seq_len : Nat) :
    ∀ (batch : List Context) (kv : KVManager) (num_steps : Nat) (e : PipelineError),
    prep_loop cfg gc max_seq_len kv num_steps batch = .error e →
    (∃ id len, e = .requestTooLong id len max_seq_len ∧
      ∃ c ∈ batch, c.cache_seq_id = id ∧ c.current_length ≤ len ∧
        (max_seq_len : Int) ≤ (c.current_length : Int) - (c.active_length : Int)) ∨
    (e = .schemaWithoutStructuredOutput ∧
      cfg.sampling_config.enable_structured_output = false ∧
      ∃ c ∈ batch, strTruthy c.json_schema = true ∧ c.matcher = none) := by
  intro batch
  induction batch with
  | nil =>
    intro kv n e h
    unfold prep_loop at h
    cases h
  | cons c rest ih =>
    intro kv n e h
    unfold prep_loop at h
    cases hinit : init_matcher cfg gc c with
    | error e0 =>
      rw [hinit] at h
      cases h
      obtain ⟨he, hflag, hts, hm⟩ := init_matcher_error_iff _ _ _ _ hinit
      exact Or.inr ⟨he, hflag, c, List.mem_cons_self _ _, hts, hm⟩
    | ok c1 =>
      rw [hinit] at h
      dsimp only at h
      cases hcalc : calculate_num_steps max_seq_len n (apply_jump_forward c1) with
      | error e0 =>
        rw [hcalc] at h
        cases h
        obtain ⟨he, hb⟩ := calc_num_steps_error_iff _ _ _ _ hcalc
        obtain ⟨hf1, hf2, hf3⟩ := init_matcher_ok_fields _ _ _ _ hinit
        obtain ⟨hj1, hj2, hj3⟩ := apply_jump_forward_fields c1
        refine Or.inl ⟨c.cache_seq_id, (apply_jump_forward c1).current_length,
          ?_, c, List.mem_cons_self _ _, rfl, ?_, ?_⟩
        · rw [he, hj1, hf1]
        · rw [← hf2]
          exact hj3
        · rw [hj2, hf2, hf3] at hb
          exact hb
      | ok k =>
        rw [hcalc] at h
        dsimp only at h
        cases hrest : prep_loop cfg gc max_seq_len
            (claim_context kv (apply_jump_forward c1)) k rest with
        | error e0 =>
          rw [hrest] at h
          cases h
          rcases ih _ _ _ hrest with
            ⟨id, len, he, x, hx, hrest'⟩ | ⟨he, hflag, x, hx, hrest'⟩
          · exact Or.inl ⟨id, len, he, x, List.mem_cons_of_mem _ hx, hrest'⟩
          · exact Or.inr ⟨he, hflag, x, List.mem_cons_of_mem _ hx, hrest'⟩
        | ok trip =>
          obtain ⟨ctxs2, kv2, s2⟩ := trip
          rw [hrest] at h
          cases h

/-- C6: preparation signals a fatal configuration error exactly in the two
configuration-error cases — some context already at or past the max-length
bound (available steps at most zero), with the raised error carrying that
context's id, a length at least the context's, and the bound; or some context
supplying a json schema while structured output is globally disabled — and
when preparation errors, the decode loop never executes the model for that
batch. -/
theorem C6_configuration_errors (cfg : PipelineConfig) (gc : GrammarCompiler)
    (vocab_size : Nat) (fetchTrim : Nat → List Token → List Token)
    (max_seq_len : Nat) (kv : KVManager) (batch : List Context) (num_steps : Nat) :
    ((∃ c ∈ batch, (max_seq_len : Int) ≤
        (c.current_length : Int) - (c.active_length : Int)) →
      ∃ e, prepare_batch cfg gc vocab_size fetchTrim max_seq_len kv batch num_steps
        = .error e) ∧
    (cfg.sampling_config.enable_structured_output = false →
      (∃ c ∈ batch, strTruthy c.json_schema = true ∧ c.matcher = none) →
      ∃ e, prepare_batch cfg gc vocab_size fetchTrim max_seq_len kv batch num_steps
        = .error e) ∧
    (∀ e, prepare_batch cfg gc vocab_size fetchTrim max_seq_len kv batch num_steps
        = .error e →
      (∃ id len, e = .requestTooLong id len max_seq_len ∧
        ∃ c ∈ batch, c.cache_seq_id = id ∧ c.current_length ≤ len ∧
          (max_seq_len : Int) ≤ (c.current_length : Int) - (c.active_length : Int)) ∨
      (e = .schemaWithoutStructuredOutput ∧
        cfg.sampling_config.enable_structured_output = false ∧
        ∃ c ∈ batch, strTruthy c.json_schema = true ∧ c.matcher = none)) ∧
    (∀ (exec : Executor) (eos_token_ids : Finset Token) (e : PipelineError),
      prepare_batch cfg gc vocab_size fetchTrim max_seq_len kv batch num_steps
        = .error e →
      ∀ i, Event.executeModel i ∉
        (next_token cfg gc exec eos_token_ids vocab_size fetchTrim max_seq_len kv
          batch num_steps).trace) := by
  refine ⟨?_, ?_, ?_, ?_⟩
  · intro hex
    obtain ⟨e, he⟩ := prep_loop_error_of_too_long cfg gc max_seq_len batch kv num_steps hex
    refine ⟨e, ?_⟩
    unfold prepare_batch
    rw [he]
  · intro hflag hex
    obtain ⟨e, he⟩ :=
      prep_loop_error_of_schema cfg gc max_seq_len hflag batch kv num_steps hex
    refine ⟨e, ?_⟩
    unfold prepare_batch
    rw [he]
  · intro e h
    unfold prepare_batch at h
    cases hl : prep_loop cfg gc max_seq_len kv num_steps batch with
    | error e0 =>
      rw [hl] at h
      cases h
      exact prep_loop_error_cases cfg gc max_seq_len batch _ _ _ hl
    | ok trip =>
      obtain ⟨ctxs, kv1, s1⟩ := trip
      rw [hl] at h
      simp at h
  · intro exec eos_token_ids e h i hmem
    unfold next_token at hmem
    rw [h] at hmem
    simp at hmem

/-- Witness for C6: a context with total length ten and no pending tokens under
a bound of six makes the concrete next_token call execute no model step. -/
theorem C6_configuration_errors_witness :
    Event.executeModel 0 ∉
      (next_token cfgOff gc0 exec0 {5} 0 (fun _ p => p) 6 kv0 [c6ctx] 4).trace :=
  (C6_configuration_errors cfgOff gc0 0 (fun _ p => p) 6 kv0 [c6ctx] 4).2.2.2
    exec0 {5} (.requestTooLong 0 10 6) rfl 0

theorem prepare_batch_kv (cfg : PipelineConfig) (gc : GrammarCompiler)
    (vocab_size : Nat) (fetchTrim : Nat → List Token → List Token)
    (max_seq_len : Nat) (kv : KVManager) (batch : List Context) (num_steps : Nat)
    (out : PrepOut)
    (hok : prepare_batch cfg gc vocab_size fetchTrim max_seq_len kv batch num_steps
      = .ok out) :
    (∀ id, kv.contains id = true → out.kv.contains id = true) ∧
    (∀ c ∈ batch, out.kv.contains c.cache_seq_id = true) := by
  unfold prepare_batch at hok
  cases hloop : prep_loop cfg gc max_seq_len kv num_steps batch with
  | error e =>
    rw [hloop] at hok
    simp at hok
  | ok trip =>
    obtain ⟨ctxs, kv1, s1⟩ := trip
    rw [hloop] at hok
    cases hok
    obtain ⟨hmono, hbatch, _, _⟩ := prep_loop_kv cfg gc max_seq_len batch _ _ _ _ _ hloop
    exact ⟨hmono, hbatch⟩

/-- C9: a next_token call never releases a cache slot — every id claimed before
the call is still claimed after it, and on success every batch context's id is
claimed in the resulting state even when its response status is terminal; the
slot is freed only by the explicit release operation, which removes exactly the
released context's id. -/
theorem C9_slot_release (cfg : PipelineConfig) (gc : GrammarCompiler)
    (exec : Executor) (eos_token_ids : Finset Token) (vocab_size : Nat)
    (fetchTrim : Nat → List Token → List Token) (max_seq_len : Nat)
    (kv : KVManager) (batch : List Context) (num_steps : Nat) (context : Context) :
    (∀ id, kv.contains id = true →
      (next_token cfg gc exec eos_token_ids vocab_size fetchTrim max_seq_len kv
        batch num_steps).kv.contains id = true) ∧
    (∀ out, (next_token cfg gc exec eos_token_ids vocab_size fetchTrim max_seq_len kv
        batch num_steps).result = .ok out →
      ∀ c ∈ batch, out.kv.contains c.cache_seq_id = true) ∧
    (pipeline_release kv context).contains context.cache_seq_id = false ∧
    (∀ id, id ≠ context.cache_seq_id →
      (pipeline_release kv context).contains id = kv.contains id) := by
  refine ⟨?_, ?_, ?_, ?_⟩
  · intro id h
    unfold next_token
    cases hprep : prepare_batch cfg gc vocab_size fetchTrim max_seq_len kv
        batch num_steps with
    | error e => exact h
    | ok prep =>
      dsimp only
      split
      · exact (prepare_batch_kv _ _ _ _ _ _ _ _ _ hprep).1 id h
      · exact (prepare_batch_kv _ _ _ _ _ _ _ _ _ hprep).1 id h
  · intro out hres c hc
    unfold next_token at hres
    cases hprep : prepare_batch cfg gc vocab_size fetchTrim max_seq_len kv
        batch num_steps with
    | error e =>
      rw [hprep] at hres
      simp at hres
    | ok prep =>
      rw [hprep] at hres
      dsimp only at hres
      split at hres
      · simp at hres
      · dsimp only at hres
        cases hres
        exact (prepare_batch_kv _ _ _ _ _ _ _ _ _ hprep).2 c hc
  · simp [pipeline_release, KVManager.release, KVManager.contains, List.mem_filter]
  · intro id hid
    simp only [pipeline_release, KVManager.release, KVManager.contains]
    rw [decide_eq_decide]
    simp [List.mem_filter, hid]

/-- Witness for C9: a previously claimed foreign id survives a concrete
next_token call. -/
theorem C9_slot_release_witness :
    (next_token cfgOff gc0 exec0 {5} 0 (fun _ p => p) 100 ⟨[9]⟩ [c1ctx] 3).kv.contains 9
      = true :=
  (C9_slot_release cfgOff gc0 exec0 {5} 0 (fun _ p => p) 100 ⟨[9]⟩ [c1ctx] 3 c1ctx).1
    9 (by decide)

theorem decode_steps_trace_loop (exec : Executor) (compute_lp mask_on : Bool)
    (num_steps : Nat) :
    ∀ l : List Nat, ∀ e ∈ (decode_steps exec compute_lp mask_on num_steps l).trace,
      e.isLoopEvent = true := by
  intro l
  induction l with
  | nil =>
    intro e he
    cases he
  | cons j rest ih =>
    intro e he
    simp only [decode_steps, List.mem_cons, List.mem_append] at he
    rcases he with h | h | h | h | h
    · rw [h]; rfl
    · rw [h]; rfl
    · split at h
      · rw [List.mem_singleton.mp h]; rfl
      · cases h
    · split at h
      · cases h
      · rcases List.mem_cons.mp h with h | h
        · rw [h]; rfl
        · rw [List.mem_singleton.mp h]; rfl
    · exact ih e h

theorem decode_steps_trace_mem (exec : Executor) (compute_lp mask_on : Bool)
    (num_steps : Nat) :
    ∀ l : List Nat, ∀ i ∈ l,
      Event.executeModel i ∈ (decode_steps exec compute_lp mask_on num_steps l).trace ∧
      Event.sampleTokens i ∈ (decode_steps exec compute_lp mask_on num_steps l).trace := by
  intro l
  induction l with
  | nil =>
    intro i hi
    cases hi
  | cons j rest ih =>
    intro i hi
    simp only [decode_steps, List.mem_cons, List.mem_append]
    cases hi with
    | head =>
      exact ⟨Or.inl rfl, Or.inr (Or.inl rfl)⟩
    | tail _ hi =>
      obtain ⟨h1, h2⟩ := ih i hi
      exact ⟨Or.inr (Or.inr (Or.inr (Or.inr h1))),
        Or.inr (Or.inr (Or.inr (Or.inr h2)))⟩

/-- C8: on every successful next_token call the generated-token buffer is
copied to host exactly once, after the multi-step decode loop has finished all
its steps — the trace splits around a single host copy, with every per-step
execute and sample event strictly before it and every host read of generation
state (response building and the cache commit) strictly after it. -/
theorem C8_single_host_copy (cfg : PipelineConfig) (gc : GrammarCompiler)
    (exec : Executor) (eos_token_ids : Finset Token) (vocab_size : Nat)
    (fetchTrim : Nat → List Token → List Token) (max_seq_len : Nat)
    (kv : KVManager) (batch : List Context) (num_steps : Nat) (out : NextTokenOut)
    (hok : (next_token cfg gc exec eos_token_ids vocab_size fetchTrim max_seq_len kv
      batch num_steps).result = .ok out) :
    ∃ pre post,
      (next_token cfg gc exec eos_token_ids vocab_size fetchTrim max_seq_len kv
        batch num_steps).trace = pre ++ Event.copyToHost :: post ∧
      Event.copyToHost ∉ pre ∧
      Event.copyToHost ∉ post ∧
      (∀ i, i < out.num_steps →
        Event.executeModel i ∈ pre ∧ Event.sampleTokens i ∈ pre) ∧
      Event.readHostTokens ∉ pre ∧
      Event.kvStep ∈ post := by
  unfold next_token at hok ⊢
  cases hprep : prepare_batch cfg gc vocab_size fetchTrim max_seq_len kv
      batch num_steps with
  | error e =>
    rw [hprep] at hok
    simp at hok
  | ok prep =>
    rw [hprep] at hok
    dsimp only at hok ⊢
    split at hok
    · simp at hok
    · dsimp only at hok
      cases hok
      dsimp only
      refine ⟨(decode_loop exec (any_log_probabilities batch)
          prep.bitmask prep.num_steps).trace,
        Event.kvStep :: List.replicate prep.contexts.length Event.readHostTokens,
        by simp, ?_, ?_, ?_, ?_, ?_⟩
      · intro hmem
        have := decode_steps_trace_loop exec _ _ _ _ _ hmem
        simp [Event.isLoopEvent] at this
      · intro hmem
        rcases List.mem_cons.mp hmem with h | h
        · cases h
        · exact absurd (List.mem_replicate.mp h).2 (by simp)
      · intro i hi
        exact decode_steps_trace_mem exec _ _ _ _ i (List.mem_range.mpr hi)
      · intro hmem
        have := decode_steps_trace_loop exec _ _ _ _ _ hmem
        simp [Event.isLoopEvent] at this
      · exact List.mem_cons_self _ _

/-- Witness for C8 at a concrete successful three-step call on an empty batch. -/
theorem C8_single_host_copy_witness :
    ∃ pre post,
      (next_token cfgOff gc0 exec0 {5} 0 (fun _ p => p) 100 kv0 [] 3).trace
        = pre ++ Event.copyToHost :: post ∧
      Event.copyToHost ∉ pre ∧
      Event.copyToHost ∉ post ∧
      (∀ i, i < 3 →
        Event.executeModel i ∈ pre ∧ Event.sampleTokens i ∈ pre) ∧
      Event.readHostTokens ∉ pre ∧
      Event.kvStep ∈ post :=
  C8_single_host_copy cfgOff gc0 exec0 {5} 0 (fun _ p => p) 100 kv0 [] 3
    { responses := [], kv := kv0, num_steps := 3, bitmask := none } rfl

theorem context_update_fields (context : Context) (t : Token) (lp : Option LogProbs) :
    (context.update t lp).max_length = context.max_length ∧
    (context.update t lp).current_length = context.current_length + 1 ∧
    (context.update t lp).history = context.history ++ [t] ∧
    (context.update t lp).completion_queue = context.completion_queue ++ [(t, lp)] :=
  ⟨rfl, rfl, rfl, rfl⟩

theorem find_enumFrom_shift (eos_token_ids : Finset Token) (max_length : Nat) :
    ∀ (row : List Token) (curr k : Nat),
    (List.enumFrom k row).find?
        (fun p => decide (p.2 ∈ eos_token_ids) || decide (curr + p.1 + 1 = max_length))
      = (row.enum.find?
          (fun p => decide (p.2 ∈ eos_token_ids)
            || decide (curr + k + p.1 + 1 = max_length))).map
          (fun p => (p.1 + k, p.2)) := by
  intro row
  induction row with
  | nil => intro curr k; rfl
  | cons t rest ih =>
    intro curr k
    rw [List.enumFrom_cons, List.enum_cons]
    by_cases h : (decide (t ∈ eos_token_ids)
        || decide (curr + k + 1 = max_length)) = true
    · rw [@List.find?_cons_of_pos _
          (fun q => decide (q.2 ∈ eos_token_ids) || decide (curr + q.1 + 1 = max_length))
          (k, t) (List.enumFrom (k + 1) rest) h,
        @List.find?_cons_of_pos _
          (fun q => decide (q.2 ∈ eos_token_ids)
            || decide (curr + k + q.1 + 1 = max_length))
          (0, t) (List.enumFrom 1 rest) h]
      simp
    · rw [@List.find?_cons_of_neg _
          (fun q => decide (q.2 ∈ eos_token_ids) || decide (curr + q.1 + 1 = max_length))
          (k, t) (List.enumFrom (k + 1) rest) h,
        @List.find?_cons_of_neg _
          (fun q => decide (q.2 ∈ eos_token_ids)
            || decide (curr + k + q.1 + 1 = max_length))
          (0, t) (List.enumFrom 1 rest) h]
      rw [ih curr (k + 1), ih (curr + k) 1, Option.map_map]
      show Option.map (fun p => (p.1 + (k + 1), p.2))
          (rest.enum.find? (fun p => decide (p.2 ∈ eos_token_ids)
            || decide (curr + k + 1 + p.1 + 1 = max_length)))
        = Option.map ((fun p => (p.1 + k, p.2)) ∘ fun p => (p.1 + 1, p.2))
          (rest.enum.find? (fun p => decide (p.2 ∈ eos_token_ids)
            || decide (curr + k + 1 + p.1 + 1 = max_length)))
      cases hx : rest.enum.find? (fun p => decide (p.2 ∈ eos_token_ids)
          || decide (curr + k + 1 + p.1 + 1 = max_length)) with
      | none => rfl
      | some p =>
        simp only [Option.map_some', Function.comp_apply, Option.some.injEq,
          Prod.mk.injEq]
        exact ⟨by omega, trivial⟩

theorem first_termination_cons (eos_token_ids : Finset Token) (max_length curr : Nat)
    (t : Token) (rest : List Token) :
    first_termination eos_token_ids max_length curr (t :: rest) =
      if t ∈ eos_token_ids ∨ curr + 1 = max_length then some (0, t)
      else (first_termination eos_token_ids max_length (curr + 1) rest).map
          (fun p => (p.1 + 1, p.2)) := by
  unfold first_termination
  rw [List.enum_cons]
  by_cases h : t ∈ eos_token_ids ∨ curr + 1 = max_length
  · rw [List.find?_cons_of_pos _ (by rcases h with h | h <;> simp [h]), if_pos h]
  · rw [List.find?_cons_of_neg _ (by simpa using h), if_neg h]
    exact find_enumFrom_shift eos_token_ids max_length rest curr 1

theorem emitted_count_cons (eos_token_ids : Finset Token) (max_length curr : Nat)
    (t : Token) (rest : List Token) :
    emitted_count eos_token_ids max_length curr (t :: rest) =
      if t ∈ eos_token_ids ∨ curr + 1 = max_length then 1
      else emitted_count eos_token_ids max_length (curr + 1) rest + 1 := by
  unfold emitted_count
  rw [first_termination_cons]
  by_cases h : t ∈ eos_token_ids ∨ curr + 1 = max_length
  · simp [h]
  · rw [if_neg h, if_neg h]
    cases hft : first_termination eos_token_ids max_length (curr + 1) rest with
    | none => simp [hft]
    | some p => simp [hft]

theorem final_status_cons (eos_token_ids : Finset Token) (max_length curr : Nat)
    (t : Token) (rest : List Token) :
    final_status eos_token_ids max_length curr (t :: rest) =
      if t ∈ eos_token_ids then TextGenerationStatus.endOfSequence
      else if curr + 1 = max_length then TextGenerationStatus.maximumLength
      else final_status eos_token_ids max_length (curr + 1) rest := by
  unfold final_status
  rw [first_termination_cons]
  by_cases h1 : t ∈ eos_token_ids
  · simp [h1]
  · by_cases h2 : curr + 1 = max_length
    · simp [h1, h2]
    · rw [if_neg (by tauto), if_neg h1, if_neg h2]
      cases hft : first_termination eos_token_ids max_length (curr + 1) rest with
      | none => simp [hft]
      | some p => simp [hft]

theorem final_status_active_emitted (eos_token_ids : Finset Token)
    (max_length curr : Nat) (row : List Token)
    (h : final_status eos_token_ids max_length curr row = .active) :
    emitted_count eos_token_ids max_length curr row = row.length := by
  unfold final_status at h
  unfold emitted_count
  cases hft : first_termination eos_token_ids max_length curr row with
  | none => rfl
  | some p =>
    rw [hft] at h
    by_cases hp : p.2 ∈ eos_token_ids <;> simp [hp] at h

theorem final_status_eos_iff (eos_token_ids : Finset Token) (max_length curr : Nat)
    (row : List Token) (p : Nat × Token)
    (hft : first_termination eos_token_ids max_length curr row = some p) :
    (final_status eos_token_ids max_length curr row = .endOfSequence
      ↔ p.2 ∈ eos_token_ids) := by
  unfold final_status
  rw [hft]
  by_cases h : p.2 ∈ eos_token_ids <;> simp [h]

theorem process_steps_spec (eos_token_ids : Finset Token) (max_seq_len : Nat)
    (lp_row : Nat → Option LogProbs) :
    ∀ (row : List Token) (context : Context) (step : Nat) (max_length : Nat)
      (ctx1 : Context) (st : TextGenerationStatus),
    upper_bounded_default max_seq_len context.max_length = .ok max_length →
    process_steps eos_token_ids max_seq_len lp_row context .active step row
      = .ok (ctx1, st) →
    ctx1.history = context.history ++ row.take
        (emitted_count eos_token_ids max_length context.current_length row) ∧
    ctx1.current_length = context.current_length
        + emitted_count eos_token_ids max_length context.current_length row ∧
    ctx1.completion_queue.map Prod.fst
      = context.completion_queue.map Prod.fst ++ row.take
        (emitted_count eos_token_ids max_length context.current_length row) ∧
    st = final_status eos_token_ids max_length context.current_length row := by
  intro row
  induction row with
  | nil =>
    intro context step maxL ctx1 st hb h
    unfold process_steps at h
    cases h
    exact ⟨by simp [emitted_count, first_termination],
      by simp [emitted_count, first_termination],
      by simp [emitted_count, first_termination], rfl⟩
  | cons t rest ih =>
    intro context step maxL ctx1 st hb h
    have hupd := context_update_fields context t (lp_row step)
    unfold process_steps at h
    dsimp only at h
    rw [hupd.1, hb] at h
    dsimp only at h
    by_cases heos : t ∈ eos_token_ids
    · rw [if_pos (decide_eq_true heos)] at h
      rw [if_pos (show TextGenerationStatus.endOfSequence.is_done = true from rfl)] at h
      cases h
      have hcond : t ∈ eos_token_ids ∨ context.current_length + 1 = maxL :=
        Or.inl heos
      rw [emitted_count_cons, if_pos hcond, final_status_cons, if_pos heos]
      refine ⟨?_, ?_, ?_, rfl⟩
      · rw [hupd.2.2.1]
        simp
      · rw [hupd.2.1]
      · rw [hupd.2.2.2]
        simp
    · rw [if_neg (show ¬ (decide (t ∈ eos_token_ids) = true) by simp [heos])] at h
      rw [hupd.2.1] at h
      by_cases hlen : context.current_length + 1 = maxL
      · rw [if_pos hlen] at h
        rw [if_pos (show TextGenerationStatus.maximumLength.is_done = true from rfl)] at h
        cases h
        have hcond : t ∈ eos_token_ids ∨ context.current_length + 1 = maxL :=
          Or.inr hlen
        rw [emitted_count_cons, if_pos hcond, final_status_cons, if_neg heos,
          if_pos hlen]
        refine ⟨?_, ?_, ?_, rfl⟩
        · rw [hupd.2.2.1]
          simp
        · rw [hupd.2.1]
        · rw [hupd.2.2.2]
          simp
      · rw [if_neg hlen] at h
        rw [if_neg (show ¬ (TextGenerationStatus.active.is_done = true) by
          simp [TextGenerationStatus.is_done])] at h
        have hb2 : upper_bounded_default max_seq_len
            (context.update t (lp_row step)).max_length = .ok maxL := by
          rw [hupd.1]
          exact hb
        obtain ⟨ih1, ih2, ih3, ih4⟩ :=
          ih (context.update t (lp_row step)) (step + 1) maxL ctx1 st hb2 h
        rw [hupd.2.1] at ih1 ih2 ih3 ih4
        have hcond : ¬ (t ∈ eos_token_ids ∨ context.current_length + 1 = maxL) :=
          not_or.mpr ⟨heos, hlen⟩
        rw [emitted_count_cons, if_neg hcond, final_status_cons, if_neg heos,
          if_neg hlen]
        rw [List.take_succ_cons]
        refine ⟨?_, ?_, ?_, ih4⟩
        · rw [ih1, hupd.2.2.1]
          simp
        · rw [ih2]
          omega
        · rw [ih3, hupd.2.2.2]
          simp

theorem build_responses_index (eos_token_ids : Finset Token) (max_seq_len : Nat)
    (lp_at : Nat → Nat → Option LogProbs) (row_at : Nat → List Token) :
    ∀ (ctxs : List Context) (b : Nat)
      (results : List (Context × TextGenerationStatus × List (Token × Option LogProbs)))
      (j : Nat) (c : Context),
    build_responses eos_token_ids max_seq_len lp_at row_at b ctxs = .ok results →
    ctxs[j]? = some c →
    ∃ ctx1 st,
      process_steps eos_token_ids max_seq_len (lp_at (b + j)) c .active 0
        (row_at (b + j)) = .ok (ctx1, st) ∧
      results[j]? = some
        ({ ctx1 with completion_queue := [] }, st, ctx1.completion_queue) := by
  intro ctxs
  induction ctxs with
  | nil =>
    intro b results j c h hj
    simp at hj
  | cons c0 rest ih =>
    intro b results j c h hj
    unfold build_responses at h
    cases hp : process_steps eos_token_ids max_seq_len (lp_at b) c0 .active 0
        (row_at b) with
    | error e =>
      rw [hp] at h
      simp at h
    | ok pr =>
      obtain ⟨ctx1, st⟩ := pr
      rw [hp] at h
      dsimp only [Context.outstanding_completion_tokens] at h
      cases hb2 : build_responses eos_token_ids max_seq_len lp_at row_at (b + 1)
          rest with
      | error e =>
        rw [hb2] at h
        simp at h
      | ok tail =>
        rw [hb2] at h
        cases h
        cases j with
        | zero =>
          simp only [List.getElem?_cons_zero, Option.some.injEq] at hj
          subst hj
          refine ⟨ctx1, st, ?_, ?_⟩
          · rw [Nat.add_zero]
            exact hp
          · simp
        | succ j1 =>
          simp only [List.getElem?_cons_succ] at hj
          obtain ⟨ctx2, st2, h1, h2⟩ := ih (b + 1) tail j1 c hb2 hj
          refine ⟨ctx2, st2, ?_, ?_⟩
          · rw [show b + (j1 + 1) = (b + 1) + j1 from by omega]
            exact h1
          · simpa using h2

/-- C2 (amended/corrected): in finalization each context walks its own
generated-token row independently of its co-batched contexts: the walk stops at
the first terminal token, reporting END_OF_SEQUENCE exactly when that token is
in the configured eos id set (eos takes precedence), and MAXIMUM_LENGTH when
the new total length equals the clamped max length bound and the token is not
an eos id; after a terminal status no further step tokens are written into that
context's history, and a context that stays ACTIVE has all num_steps tokens
written and reported after its previously queued completion tokens. -/
theorem C2_finalization_statuses (eos_token_ids : Finset Token) (max_seq_len : Nat)
    (lp_at : Nat → Nat → Option LogProbs) (row_at : Nat → List Token)
    (ctxs : List Context)
    (results : List (Context × TextGenerationStatus × List (Token × Option LogProbs)))
    (j : Nat) (c : Context) (max_length : Nat) (ctxO : Context)
    (st : TextGenerationStatus) (toks : List (Token × Option LogProbs))
    (hrun : build_responses eos_token_ids max_seq_len lp_at row_at 0 ctxs
      = .ok results)
    (hj : ctxs[j]? = some c)
    (hres : results[j]? = some (ctxO, st, toks))
    (hbound : upper_bounded_default max_seq_len c.max_length = .ok max_length) :
    st = final_status eos_token_ids max_length c.current_length (row_at j) ∧
    ctxO.history = c.history ++ (row_at j).take
      (emitted_count eos_token_ids max_length c.current_length (row_at j)) ∧
    toks.map Prod.fst = c.completion_queue.map Prod.fst ++ (row_at j).take
      (emitted_count eos_token_ids max_length c.current_length (row_at j)) ∧
    (st = .active →
      emitted_count eos_token_ids max_length c.current_length (row_at j)
        = (row_at j).length) ∧
    (∀ p, first_termination eos_token_ids max_length c.current_length (row_at j)
        = some p → (st = .endOfSequence ↔ p.2 ∈ eos_token_ids)) := by
  obtain ⟨ctx1, st1, hp, hres1⟩ :=
    build_responses_index eos_token_ids max_seq_len lp_at row_at ctxs 0 results j c
      hrun hj
  rw [hres1] at hres
  simp only [Option.some.injEq, Prod.mk.injEq] at hres
  obtain ⟨he1, he2, he3⟩ := hres
  rw [Nat.zero_add] at hp
  obtain ⟨h1, h2, h3, h4⟩ :=
    process_steps_spec eos_token_ids max_seq_len (lp_at j) (row_at j) c 0
      max_length ctx1 st1 hbound hp
  refine ⟨?_, ?_, ?_, ?_, ?_⟩
  · rw [← he2]
    exact h4
  · rw [← he1]
    exact h1
  · rw [← he3]
    exact h3
  · intro hst
    refine final_status_active_emitted eos_token_ids max_length c.current_length
      (row_at j) ?_
    rw [← h4, he2]
    exact hst
  · intro p hft
    rw [← he2, h4]
    exact final_status_eos_iff eos_token_ids max_length c.current_length
      (row_at j) p hft

/-- Witness for the amended C2 at a concrete batch: a token reaching the max
length bound is reported as MAXIMUM_LENGTH. -/
theorem C2_finalization_statuses_witness :
    TextGenerationStatus.maximumLength
      = final_status {5} 3 c2ctx.current_length [7, 5, 7] :=
  (C2_finalization_statuses {5} 10 (fun _ _ => none) (fun _ => [7, 5, 7]) [c2ctx]
    [(c2res, .maximumLength, [(7, none)])] 0 c2ctx 3 c2res .maximumLength
    [(7, none)] (by with_unfolding_all rfl) (by decide) (by decide) rfl).1

end MaxPipelines
